import Mathlib

/-!
Shallow embedding of the reward-and-progression core of `src/main.py`
(Kabbalah Code backend).  The program has two code paths selected by the
`USE_SUPABASE` flag: a Supabase-backed path and an in-memory fallback using
the global dicts `users_memory` and `predictions_memory`.  Both paths are
embedded here: `mem_*` definitions model the in-memory branches and `sb_*`
definitions model the Supabase branches, with the database tables modelled
as lists of rows and the Python dicts as insertion-ordered association
lists.  Calendar dates are modelled as natural numbers (one per day);
randomness (prediction text/code generation, fortune prizes) is modelled by
passing the generated value as an explicit argument.
-/

/-- `calculate_xp_for_level` from `src/main.py`:
`return 1000 * level + 500 * (level - 1)`.  Levels in the program are
always `≥ 1` (accounts are onboarded at level 1 and the level only
increases), where natural subtraction agrees with Python's integers. -/
def calculate_xp_for_level (level : Nat) : Nat :=
  1000 * level + 500 * (level - 1)

/-- The level-up loop shared by the Supabase branches of
`verify_prediction` and `spin_fortune`:
`while new_xp >= xp_needed: new_level += 1; new_xp -= xp_needed;
xp_needed = calculate_xp_for_level(new_level)`.
The extra conjunct `0 < calculate_xp_for_level level` is a termination
guard; it holds automatically whenever `1 ≤ level` (see
`levelUpLoop_eq_of_pos`), which is the case for every account the program
creates, so on that domain this definition coincides with the source. -/
def levelUpLoop (xp level : Nat) : Nat × Nat :=
  if h : 0 < calculate_xp_for_level level ∧ calculate_xp_for_level level ≤ xp then
    levelUpLoop (xp - calculate_xp_for_level level) (level + 1)
  else
    (xp, level)
termination_by xp
decreasing_by
  exact Nat.sub_lt (Nat.lt_of_lt_of_le h.1 h.2) h.1

theorem calc_xp_pos (level : Nat) (h : 1 ≤ level) : 0 < calculate_xp_for_level level := by
  unfold calculate_xp_for_level
  omega

theorem levelUpLoop_eq_of_pos (xp level : Nat) (h : 1 ≤ level) :
    levelUpLoop xp level =
      if calculate_xp_for_level level ≤ xp then
        levelUpLoop (xp - calculate_xp_for_level level) (level + 1)
      else (xp, level) := by
  rw [levelUpLoop]
  by_cases hle : calculate_xp_for_level level ≤ xp
  · rw [dif_pos ⟨calc_xp_pos level h, hle⟩, if_pos hle]
  · rw [dif_neg (fun hc => hle hc.2), if_neg hle]

theorem levelUpLoop_spec :
    ∀ xp level, 1 ≤ level →
      (levelUpLoop xp level).1 < calculate_xp_for_level (levelUpLoop xp level).2 ∧
      1 ≤ (levelUpLoop xp level).2 := by
  intro xp
  induction xp using Nat.strong_induction_on with
  | _ xp ih =>
    intro level h
    rw [levelUpLoop_eq_of_pos xp level h]
    by_cases hle : calculate_xp_for_level level ≤ xp
    · rw [if_pos hle]
      exact ih (xp - calculate_xp_for_level level)
        (Nat.sub_lt (Nat.lt_of_lt_of_le (calc_xp_pos level h) hle) (calc_xp_pos level h))
        (level + 1) (by omega)
    · rw [if_neg hle]
      exact ⟨Nat.lt_of_not_le hle, h⟩

/-- Error outcomes of the endpoints: the `HTTPException`s raised in
`src/main.py` plus the unhandled Python exceptions (`KeyError` from a `[]`
lookup on a dict missing the key, `IndexError` from `result.data[0]` on an
empty query result). -/
inductive ApiError where
  | noPrediction
  | alreadyVerified
  | invalidCode
  | alreadySpun
  | notFound
  | keyError
  | indexError
deriving DecidableEq

/-- A value of the `users_memory` dict in `src/main.py`.  Python dicts may
lack keys, so every field is optional; `onboard_user` fills them all, while
the in-memory branch of `verify_prediction` can create a record holding
only `points`.  A `referrer_id` key that is absent and one stored as `None`
are merged (the code reads it only through `.get`). -/
structure StoredUser where
  telegram_id : Option Nat := none
  username : Option String := none
  evm_address : Option String := none
  twitter_username : Option String := none
  level : Option Nat := none
  xp : Option Nat := none
  points : Option Nat := none
  referrer_id : Option Nat := none
deriving DecidableEq

/-- A value of the `predictions_memory` dict: the dict returned by
`generate_prediction` (text, image url, verification code, hash). -/
structure PredictionD where
  text : String := ""
  image_url : String := ""
  code : String := ""
  mystical_hash : String := ""
deriving DecidableEq

/-- Python-dict lookup `d.get(k)` / `d[k]` on an insertion-ordered
association list. -/
def dictGet {κ α : Type} [DecidableEq κ] (d : List (κ × α)) (k : κ) : Option α :=
  match d with
  | [] => none
  | (k0, v) :: rest => if k0 = k then some v else dictGet rest k

/-- Python-dict assignment `d[k] = v`: updates in place when the key
exists (keeping its position), otherwise appends, as Python dicts do. -/
def dictSet {κ α : Type} [DecidableEq κ] (d : List (κ × α)) (k : κ) (v : α) :
    List (κ × α) :=
  match d with
  | [] => [(k, v)]
  | (k0, v0) :: rest => if k0 = k then (k, v) :: rest else (k0, v0) :: dictSet rest k v

/-- The in-memory global state: `users_memory` keyed by `telegram_id`, and
`predictions_memory` keyed by the cache key `f"{telegram_id}_{today}"`,
modelled as the pair (telegram id, day). -/
structure MemState where
  users : List (Nat × StoredUser) := []
  preds : List ((Nat × Nat) × PredictionD) := []
deriving DecidableEq

/-- Response of the in-memory branch of `verify_prediction`. -/
structure MemVerifyResp where
  success : Bool
  points_earned : Nat
  new_balance : Nat
deriving DecidableEq

/-- Response of `spin_fortune` (`{"points": ..., "new_balance": ...}`). -/
structure SpinResp where
  points : Nat
  new_balance : Nat
deriving DecidableEq

/-- In-memory branch of `get_daily_prediction`: return the cached
prediction if present, otherwise store and return the freshly generated
one (`fresh` stands for the output of `generate_prediction`). -/
def mem_get_daily_prediction (s : MemState) (tid day : Nat) (fresh : PredictionD) :
    PredictionD × MemState :=
  match dictGet s.preds (tid, day) with
  | some p => (p, s)
  | none => (fresh, { s with preds := dictSet s.preds (tid, day) fresh })

/-- In-memory branch of `verify_prediction`: requires a cached prediction
for (user, today) and a matching code, then adds 100 to the user's points
(creating a points-only record via `users_memory.get(telegram_id, {})` if
the user is unknown).  There is no verified flag and no xp/level update in
this branch. -/
def mem_verify_prediction (s : MemState) (tid day : Nat) (code : String) :
    (Except ApiError MemVerifyResp) × MemState :=
  match dictGet s.preds (tid, day) with
  | none => (.error .noPrediction, s)
  | some pred =>
    if code ≠ pred.code then
      (.error .invalidCode, s)
    else
      let user := (dictGet s.users tid).getD {}
      let newPts := user.points.getD 0 + 100
      (.ok ⟨true, 100, newPts⟩,
        { s with users := dictSet s.users tid { user with points := some newPts } })

/-- In-memory branch of `spin_fortune`: no daily gate at all; adds the
prize (`random.choice(prizes)`, passed here as `prize`) to the user's
points, creating the record if absent. -/
def mem_spin_fortune (s : MemState) (tid : Nat) (prize : Nat) :
    (Except ApiError SpinResp) × MemState :=
  let user := (dictGet s.users tid).getD {}
  let newPts := user.points.getD 0 + prize
  (.ok ⟨prize, newPts⟩,
    { s with users := dictSet s.users tid { user with points := some newPts } })

/-- Response of the in-memory branch of `get_profile`: the user's dict
copy plus the added `referrals` and `xp_to_next` fields. -/
structure MemProfileResp where
  user : StoredUser
  referrals : Nat
  xp_to_next : Nat
deriving DecidableEq

/-- In-memory branch of `get_profile`: 404 if the user is unknown; counts
referrals with `.get("referrer_id")`; then reads `user["level"]` with a
plain `[]` lookup, which raises `KeyError` when the key is absent. -/
def mem_get_profile (users : List (Nat × StoredUser)) (tid : Nat) :
    Except ApiError MemProfileResp :=
  match dictGet users tid with
  | none => .error .notFound
  | some u =>
    let referrals := (users.map Prod.snd).countP (fun v => v.referrer_id == some tid)
    match u.level with
    | none => .error .keyError
    | some lv => .ok ⟨u, referrals, calculate_xp_for_level lv⟩

/-- The sort key of the in-memory leaderboard:
`key=lambda u: u.get("points", 0)`. -/
def userKey (u : StoredUser) : Nat :=
  u.points.getD 0

/-- Insert into a descending list, placing the new element before the
first element whose key is `≤` its own.  Together with `sortDesc` this is
the unique stable descending sort, which is what Python's
`sorted(..., key=..., reverse=True)` computes (Python's sort is stable and
`reverse=True` flips comparisons without disturbing ties). -/
def insertDesc (u : StoredUser) : List StoredUser → List StoredUser
  | [] => [u]
  | v :: rest => if userKey v ≤ userKey u then u :: v :: rest else v :: insertDesc u rest

/-- Stable descending sort by `userKey`, modelling
`sorted(users_memory.values(), key=lambda u: u.get("points", 0), reverse=True)`. -/
def sortDesc : List StoredUser → List StoredUser
  | [] => []
  | u :: rest => insertDesc u (sortDesc rest)

/-- Python list slicing `l[:limit]` for an arbitrary integer `limit`:
non-negative limits truncate to the first `limit` elements; negative
limits drop `|limit|` elements from the end (clamped at the empty list). -/
def pySlice {α : Type} (l : List α) (limit : Int) : List α :=
  if 0 ≤ limit then l.take limit.toNat
  else l.take (l.length - limit.natAbs)

/-- One entry of the leaderboard response. -/
structure LBEntry where
  telegram_id : Nat
  username : String
  level : Nat
  points : Nat
  rank : Nat
deriving DecidableEq

/-- The list comprehension of the in-memory `get_leaderboard`: builds one
entry per user with `rank = i + 1`; `u["telegram_id"]` and `u["username"]`
are plain `[]` lookups that raise `KeyError` when absent, while `level`
and `points` fall back to defaults through `.get`.  `i` is the enumeration
index of the first element. -/
def mkEntries : List StoredUser → Nat → Except ApiError (List LBEntry)
  | [], _ => .ok []
  | u :: rest, i =>
    match u.telegram_id, u.username with
    | some t, some name =>
      match mkEntries rest (i + 1) with
      | .ok entries => .ok (⟨t, name, u.level.getD 1, u.points.getD 0, i + 1⟩ :: entries)
      | .error e => .error e
    | _, _ => .error .keyError

/-- In-memory branch of `get_leaderboard`: stable descending sort of the
snapshot by points, Python slice `[:limit]`, then ranked entries. -/
def mem_get_leaderboard (users : List (Nat × StoredUser)) (limit : Int) :
    Except ApiError (List LBEntry) :=
  mkEntries (pySlice (sortDesc (users.map Prod.snd)) limit) 0

/-- A row of the Supabase `users` table (all columns present). -/
structure SbUser where
  telegram_id : Nat
  username : String
  level : Nat
  xp : Nat
  points : Nat
  referrer_id : Option Nat
deriving DecidableEq

/-- A row of the Supabase `predictions` table (the columns
`verify_prediction` reads: primary key `id`, the (user, day) key, the
verification code and the verified flag). -/
structure SbPred where
  id : Nat
  user_id : Nat
  created_at : Nat
  verification_code : String
  is_verified : Bool
deriving DecidableEq

/-- A row of the Supabase `spins` table. -/
structure SbSpin where
  user_id : Nat
  spun_at : Nat
  points_won : Nat
deriving DecidableEq

/-- The Supabase tables the embedded endpoints touch. -/
structure SbState where
  users : List SbUser := []
  preds : List SbPred := []
  spins : List SbSpin := []
deriving DecidableEq

/-- `supabase.table("users").select("*").eq("telegram_id", tid)`. -/
def selectUser (users : List SbUser) (tid : Nat) : List SbUser :=
  users.filter (fun u => u.telegram_id == tid)

/-- `supabase.table("predictions").select("*").eq("user_id", tid)
.eq("created_at", str(today))`. -/
def selectPred (preds : List SbPred) (tid day : Nat) : List SbPred :=
  preds.filter (fun p => p.user_id == tid && p.created_at == day)

/-- The award block shared verbatim by the Supabase branches of
`verify_prediction` and `spin_fortune`: add the award to points and xp,
then run the level-up loop. -/
def awardUpdate (user : SbUser) (pts : Nat) : SbUser :=
  let new_points := user.points + pts
  let lp := levelUpLoop (user.xp + pts) user.level
  { user with points := new_points, xp := lp.1, level := lp.2 }

/-- Response of the Supabase branch of `verify_prediction`. -/
structure SbVerifyResp where
  success : Bool
  points_earned : Nat
  new_balance : Nat
  level : Nat
deriving DecidableEq

/-- Supabase branch of `verify_prediction`: load today's prediction
(`result.data[0]`), reject if already verified (before any code check) or
if the code mismatches; otherwise mark the row verified, load the user —
`user_result.data[0]` raises `IndexError` when the user is unknown — and
apply the award and level-up, updating every `users` row with this
`telegram_id`. -/
def sb_verify_prediction (s : SbState) (tid day : Nat) (code : String) :
    (Except ApiError SbVerifyResp) × SbState :=
  match (selectPred s.preds tid day).head? with
  | none => (.error .noPrediction, s)
  | some pred =>
    if pred.is_verified then
      (.error .alreadyVerified, s)
    else if code ≠ pred.verification_code then
      (.error .invalidCode, s)
    else
      let preds2 := s.preds.map
        (fun p => if p.id == pred.id then { p with is_verified := true } else p)
      match (selectUser s.users tid).head? with
      | none => (.error .indexError, { s with preds := preds2 })
      | some user =>
        let u2 := awardUpdate user 100
        let users2 := s.users.map
          (fun u => if u.telegram_id == tid then
            { u with points := u2.points, xp := u2.xp, level := u2.level } else u)
        (.ok ⟨true, 100, u2.points, u2.level⟩, { s with preds := preds2, users := users2 })

/-- Modelled from the spec: the database schema of the `spins` table is
not in the repository; the insert in `spin_fortune` sets only `user_id`
and `points_won`, and the spec's SpinRecord is "one per (user, calendar
date)" with the record's existence for the current date as the gating
signal, so the `spun_at` column is taken to default to the insertion
date. -/
def mkSpinRecord (tid day prize : Nat) : SbSpin :=
  ⟨tid, day, prize⟩

/-- Supabase branch of `spin_fortune`: reject with `AlreadyDone` if a spin
row exists for (user, today); otherwise insert the spin row, load the user
(`user_result.data[0]`, `IndexError` when unknown) and apply the award and
level-up.  The prize (`random.choices(prizes, weights)`) is passed as
`prize`. -/
def sb_spin_fortune (s : SbState) (tid day : Nat) (prize : Nat) :
    (Except ApiError SpinResp) × SbState :=
  if (s.spins.filter (fun r => r.user_id == tid && r.spun_at == day)).isEmpty then
    let spins2 := s.spins ++ [mkSpinRecord tid day prize]
    match (selectUser s.users tid).head? with
    | none => (.error .indexError, { s with spins := spins2 })
    | some user =>
      let u2 := awardUpdate user prize
      let users2 := s.users.map
        (fun u => if u.telegram_id == tid then
          { u with points := u2.points, xp := u2.xp, level := u2.level } else u)
      (.ok ⟨prize, u2.points⟩, { s with spins := spins2, users := users2 })
  else
    (.error .alreadySpun, s)

/-- Response of the Supabase branch of `get_profile`. -/
structure SbProfileResp where
  user : SbUser
  referrals : Nat
  xp_to_next : Nat
deriving DecidableEq

/-- Supabase branch of `get_profile`: 404 if the user query is empty,
otherwise the user row plus a referral count and
`xp_to_next = calculate_xp_for_level(user["level"])`. -/
def sb_get_profile (s : SbState) (tid : Nat) : Except ApiError SbProfileResp :=
  match (selectUser s.users tid).head? with
  | none => .error .notFound
  | some user =>
    let referrals := (s.users.filter (fun u => u.referrer_id == some tid)).length
    .ok ⟨user, referrals, calculate_xp_for_level user.level⟩

theorem dictGet_dictSet_self {κ α : Type} [DecidableEq κ] (d : List (κ × α)) (k : κ) (v : α) :
    dictGet (dictSet d k v) k = some v := by
  induction d with
  | nil => simp [dictGet, dictSet]
  | cons hd rest ih =>
    obtain ⟨k0, v0⟩ := hd
    by_cases hk : k0 = k
    · simp [dictGet, dictSet, hk]
    · simp [dictGet, dictSet, hk, ih]

theorem dictGet_dictSet_ne {κ α : Type} [DecidableEq κ] (d : List (κ × α)) (k k2 : κ) (v : α)
    (h : k2 ≠ k) : dictGet (dictSet d k v) k2 = dictGet d k2 := by
  have h2 : ¬ k = k2 := fun he => h he.symm
  induction d with
  | nil => simp [dictGet, dictSet, h2]
  | cons hd rest ih =>
    obtain ⟨k0, v0⟩ := hd
    by_cases hk : k0 = k
    · subst hk
      simp [dictGet, dictSet, h2]
    · simp [dictGet, dictSet, hk, ih]

/-- C7: for every level ≥ 1, `xpRequiredForLevel(level)` equals
`1000*level + 500*(level-1)`; the function is a pure total function, with
the example values 1000, 2500 and 4000 at levels 1, 2 and 3. -/
theorem C7_xp_required_formula :
    (∀ level : Nat, 1 ≤ level →
      calculate_xp_for_level level = 1000 * level + 500 * (level - 1)) ∧
    calculate_xp_for_level 1 = 1000 ∧
    calculate_xp_for_level 2 = 2500 ∧
    calculate_xp_for_level 3 = 4000 :=
  ⟨fun _ _ => rfl, rfl, rfl, rfl⟩

theorem C7_xp_required_formula_witness :
    calculate_xp_for_level 5 = 1000 * 5 + 500 * (5 - 1) :=
  C7_xp_required_formula.1 5 (by decide)

/-- A fully onboarded in-memory user record, as `onboard_user` creates it
(all keys present, level 1, xp 0). -/
def exUserFull (tid : Nat) (name : String) (pts : Nat) : StoredUser :=
  { telegram_id := some tid, username := some name,
    evm_address := some "0x0000000000000000000000000000000000000000",
    twitter_username := some "tw", level := some 1, xp := some 0,
    points := some pts, referrer_id := none }

/-- C10: `get_profile` reports `xp_to_next` as the full threshold
`calculate_xp_for_level(level)` of the current level, in both the
in-memory and Supabase branches, not the remaining
`calculate_xp_for_level(level) - xp`: a level-1 user with 500 xp is shown
1000, while the remaining amount would be 500. -/
theorem C10_xp_to_next_is_full_threshold :
    (∀ (users : List (Nat × StoredUser)) (tid : Nat) (u : StoredUser) (lv : Nat),
      dictGet users tid = some u → u.level = some lv →
      ∃ r, mem_get_profile users tid = .ok r ∧ r.xp_to_next = calculate_xp_for_level lv) ∧
    (∀ (s : SbState) (tid : Nat) (user : SbUser),
      (selectUser s.users tid).head? = some user →
      ∃ r, sb_get_profile s tid = .ok r ∧ r.xp_to_next = calculate_xp_for_level user.level) ∧
    ((mem_get_profile [(9, { exUserFull 9 "u" 0 with xp := some 500 })] 9).map
        MemProfileResp.xp_to_next = .ok 1000 ∧
      calculate_xp_for_level 1 - 500 = 500 ∧ (1000 : Nat) ≠ 500) := by
  refine ⟨?_, ?_, ?_, by decide, by decide⟩
  · intro users tid u lv hu hlv
    simp only [mem_get_profile, hu, hlv]
    exact ⟨_, rfl, rfl⟩
  · intro s tid user hu
    simp only [sb_get_profile, hu]
    exact ⟨_, rfl, rfl⟩
  · rfl

theorem C10_xp_to_next_is_full_threshold_witness :
    ∃ r, mem_get_profile [(4, { exUserFull 4 "w" 0 with xp := some 500 })] 4 = .ok r ∧
      r.xp_to_next = calculate_xp_for_level 1 :=
  C10_xp_to_next_is_full_threshold.1
    [(4, { exUserFull 4 "w" 0 with xp := some 500 })] 4
    { exUserFull 4 "w" 0 with xp := some 500 } 1 rfl rfl

/-- C8: the in-memory daily prediction is created at most once per
(user, date): a fetch with a record already cached returns that record
unchanged and leaves the state untouched; the first fetch stores the
freshly generated record under the (user, date) key; and neither
`verify_prediction` nor `spin_fortune` ever modifies
`predictions_memory`, so the code is immutable once issued. -/
theorem C8_prediction_get_or_create_idempotent :
    (∀ (s : MemState) (tid day : Nat) (p fresh : PredictionD),
      dictGet s.preds (tid, day) = some p →
      mem_get_daily_prediction s tid day fresh = (p, s)) ∧
    (∀ (s : MemState) (tid day : Nat) (fresh : PredictionD),
      dictGet s.preds (tid, day) = none →
      (mem_get_daily_prediction s tid day fresh).1 = fresh ∧
      dictGet ((mem_get_daily_prediction s tid day fresh).2).preds (tid, day) = some fresh) ∧
    (∀ (s : MemState) (tid day : Nat) (code : String),
      ((mem_verify_prediction s tid day code).2).preds = s.preds) ∧
    (∀ (s : MemState) (tid : Nat) (prize : Nat),
      ((mem_spin_fortune s tid prize).2).preds = s.preds) := by
  refine ⟨?_, ?_, ?_, fun s tid prize => rfl⟩
  · intro s tid day p fresh hp
    simp [mem_get_daily_prediction, hp]
  · intro s tid day fresh hp
    simp [mem_get_daily_prediction, hp, dictGet_dictSet_self]
  · intro s tid day code
    unfold mem_verify_prediction
    cases hp : dictGet s.preds (tid, day) with
    | none => rfl
    | some pred =>
      by_cases hc : code ≠ pred.code
      · simp [hc]
      · simp [hc]

theorem C8_prediction_get_or_create_idempotent_witness :
    mem_get_daily_prediction ⟨[], [((1, 0), { code := "KCAAAAAA" })]⟩ 1 0
        { code := "KCBBBBBB" }
      = ({ code := "KCAAAAAA" }, ⟨[], [((1, 0), { code := "KCAAAAAA" })]⟩) :=
  C8_prediction_get_or_create_idempotent.1 ⟨[], [((1, 0), { code := "KCAAAAAA" })]⟩ 1 0
    { code := "KCAAAAAA" } { code := "KCBBBBBB" } rfl

theorem mkEntries_error_of_bad :
    ∀ (l : List StoredUser) (i : Nat),
      (∃ u ∈ l, u.telegram_id = none ∨ u.username = none) →
      mkEntries l i = .error .keyError := by
  intro l
  induction l with
  | nil =>
    intro i h
    rcases h with ⟨u, hu, _⟩
    cases hu
  | cons u rest ih =>
    intro i h
    rcases h with ⟨v, hv, hbad⟩
    rcases List.mem_cons.mp hv with rfl | hvrest
    · unfold mkEntries
      rcases hbad with h1 | h1
      · rw [h1]
      · rw [h1]
        cases v.telegram_id <;> rfl
    · unfold mkEntries
      cases ht : u.telegram_id with
      | none => rfl
      | some t =>
        cases hn : u.username with
        | none => rfl
        | some name =>
          rw [ih (i + 1) ⟨v, hvrest, hbad⟩]

/-- C9: an in-memory user record lacking the `level`, `username` and
`telegram_id` keys — such as the points-only record the in-memory verify
path creates for an unknown user — makes `get_profile` for that user
raise `KeyError` (at `user["level"]`) and makes `get_leaderboard` over a
store whose rendered slice contains such a record raise `KeyError` (at
`u["telegram_id"]` / `u["username"]`), instead of returning a defined
result or error. -/
theorem C9_partial_record_keyerror :
    (∀ (users : List (Nat × StoredUser)) (tid : Nat) (u : StoredUser),
      dictGet users tid = some u → u.level = none →
      mem_get_profile users tid = .error .keyError) ∧
    (∀ (users : List (Nat × StoredUser)) (limit : Int),
      (∃ u ∈ pySlice (sortDesc (users.map Prod.snd)) limit,
        u.telegram_id = none ∨ u.username = none) →
      mem_get_leaderboard users limit = .error .keyError) ∧
    (∀ p tid : Nat,
      mem_get_profile [(tid, { points := some p })] tid = .error .keyError ∧
      mem_get_leaderboard [(tid, { points := some p })] 100 = .error .keyError) := by
  refine ⟨?_, ?_, ?_⟩
  · intro users tid u hu hlv
    simp [mem_get_profile, hu, hlv]
  · intro users limit h
    exact mkEntries_error_of_bad _ 0 h
  · intro p tid
    constructor
    · simp [mem_get_profile, dictGet]
    · rfl

theorem C9_partial_record_keyerror_witness :
    mem_get_profile [(7, { points := some 100 })] 7 = .error .keyError :=
  C9_partial_record_keyerror.1 [(7, { points := some 100 })] 7 { points := some 100 } rfl rfl

theorem levelUpLoop_3600 : levelUpLoop 3600 1 = (100, 3) := by
  rw [levelUpLoop_eq_of_pos _ _ (by norm_num)]
  norm_num [calculate_xp_for_level]
  rw [levelUpLoop_eq_of_pos _ _ (by norm_num)]
  norm_num [calculate_xp_for_level]
  rw [levelUpLoop_eq_of_pos _ _ (by norm_num)]
  norm_num [calculate_xp_for_level]

/-- C4 counterexample: in the in-memory branch a successful
`verify_prediction` adds the 100 points to `points` only; the recipient's
`xp` stays at 0 instead of rising to 100 (and the level stays 1), so the
claim that every successful award adds the amount to both points and xp is
false on this input. -/
theorem C4_counterexample :
    (mem_verify_prediction ⟨[(1, exUserFull 1 "a" 0)], [((1, 0), { code := "KCABCDEF" })]⟩
        1 0 "KCABCDEF").1 = .ok ⟨true, 100, 100⟩ ∧
    (dictGet ((mem_verify_prediction ⟨[(1, exUserFull 1 "a" 0)],
        [((1, 0), { code := "KCABCDEF" })]⟩ 1 0 "KCABCDEF").2).users 1).map StoredUser.xp
      = some (some 0) ∧
    some (some 0) ≠ some (some 100) :=
  ⟨rfl, rfl, by decide⟩

/-- C4 amended: in the Supabase branches of `verify_prediction` and
`spin_fortune`, a successful award adds the amount to both points and xp
and then runs the level-up loop, after which `xp < xpRequiredForLevel(level)`
holds and the level stays ≥ 1; awarding 3600 to a level-1, 0-xp account
yields level 3 with xp = 100.  In the in-memory branches, however, only
`points` changes: the stored `xp` and `level` fields are untouched by both
`verify_prediction` and `spin_fortune`. -/
theorem C4_award_levelup_amended :
    (∀ (user : SbUser) (pts : Nat), 1 ≤ user.level →
      (awardUpdate user pts).points = user.points + pts ∧
      (awardUpdate user pts).xp < calculate_xp_for_level (awardUpdate user pts).level ∧
      1 ≤ (awardUpdate user pts).level) ∧
    ((awardUpdate ⟨1, "u", 1, 0, 0, none⟩ 3600).level = 3 ∧
      (awardUpdate ⟨1, "u", 1, 0, 0, none⟩ 3600).xp = 100) ∧
    (∀ (s : MemState) (tid day : Nat) (code : String),
      ((dictGet ((mem_verify_prediction s tid day code).2).users tid).getD {}).xp
        = ((dictGet s.users tid).getD {}).xp ∧
      ((dictGet ((mem_verify_prediction s tid day code).2).users tid).getD {}).level
        = ((dictGet s.users tid).getD {}).level) ∧
    (∀ (s : MemState) (tid prize : Nat),
      ((dictGet ((mem_spin_fortune s tid prize).2).users tid).getD {}).xp
        = ((dictGet s.users tid).getD {}).xp ∧
      ((dictGet ((mem_spin_fortune s tid prize).2).users tid).getD {}).level
        = ((dictGet s.users tid).getD {}).level) := by
  refine ⟨?_, ?_, ?_, ?_⟩
  · intro user pts h
    have hs := levelUpLoop_spec (user.xp + pts) user.level h
    exact ⟨rfl, hs.1, hs.2⟩
  · constructor <;> simp [awardUpdate, levelUpLoop_3600]
  · intro s tid day code
    unfold mem_verify_prediction
    cases hp : dictGet s.preds (tid, day) with
    | none => exact ⟨rfl, rfl⟩
    | some pred =>
      by_cases hc : code ≠ pred.code
      · simp [if_pos hc]
      · simp [if_neg hc, dictGet_dictSet_self]
  · intro s tid prize
    unfold mem_spin_fortune
    simp [dictGet_dictSet_self]

theorem C4_award_levelup_amended_witness :
    (awardUpdate ⟨2, "w", 1, 0, 0, none⟩ 100).points = (SbUser.mk 2 "w" 1 0 0 none).points + 100 ∧
    (awardUpdate ⟨2, "w", 1, 0, 0, none⟩ 100).xp
      < calculate_xp_for_level (awardUpdate ⟨2, "w", 1, 0, 0, none⟩ 100).level ∧
    1 ≤ (awardUpdate ⟨2, "w", 1, 0, 0, none⟩ 100).level :=
  C4_award_levelup_amended.1 ⟨2, "w", 1, 0, 0, none⟩ 100 (by decide)

/-- C6 counterexample: with an empty `users_memory` and a valid cached
prediction, the in-memory `verify_prediction` for the unknown user 1
succeeds and creates a points-only record credited with 100 points,
instead of failing with `NotFound` and leaving the store unchanged. -/
theorem C6_counterexample :
    dictGet (MemState.users ⟨[], [((1, 0), { code := "KCQQQQQQ" })]⟩) 1 = none ∧
    (mem_verify_prediction ⟨[], [((1, 0), { code := "KCQQQQQQ" })]⟩ 1 0 "KCQQQQQQ").1
      = .ok ⟨true, 100, 100⟩ ∧
    dictGet ((mem_verify_prediction ⟨[], [((1, 0), { code := "KCQQQQQQ" })]⟩
        1 0 "KCQQQQQQ").2).users 1 = some { points := some 100 } :=
  ⟨rfl, rfl, rfl⟩

/-- C6 amended: for a user absent from the account store, the in-memory
branch of `verify_prediction` does not fail with `NotFound`: it succeeds
and creates a points-only record credited with 100 points.  The Supabase
branch raises an unhandled `IndexError` at `user_result.data[0]` rather
than returning a `NotFound` failure (after having already marked the
prediction verified). -/
theorem C6_unknown_user_amended :
    (∀ (s : MemState) (tid day : Nat) (p : PredictionD),
      dictGet s.users tid = none → dictGet s.preds (tid, day) = some p →
      (mem_verify_prediction s tid day p.code).1 = .ok ⟨true, 100, 100⟩ ∧
      dictGet ((mem_verify_prediction s tid day p.code).2).users tid
        = some { points := some 100 }) ∧
    (∀ (s : SbState) (tid day : Nat) (pred : SbPred),
      (selectPred s.preds tid day).head? = some pred →
      pred.is_verified = false →
      (selectUser s.users tid) = [] →
      (sb_verify_prediction s tid day pred.verification_code).1 = .error .indexError) := by
  constructor
  · intro s tid day p hu hp
    unfold mem_verify_prediction
    simp [hp, hu, dictGet_dictSet_self]
  · intro s tid day pred hp hv hu
    unfold sb_verify_prediction
    simp [hp, hv, hu]

theorem C6_unknown_user_amended_witness :
    (mem_verify_prediction ⟨[], [((5, 3), { code := "KCZZZZZZ" })]⟩ 5 3
        (PredictionD.code { code := "KCZZZZZZ" })).1 = .ok ⟨true, 100, 100⟩ ∧
    dictGet ((mem_verify_prediction ⟨[], [((5, 3), { code := "KCZZZZZZ" })]⟩ 5 3
        (PredictionD.code { code := "KCZZZZZZ" })).2).users 5 = some { points := some 100 } :=
  C6_unknown_user_amended.1 ⟨[], [((5, 3), { code := "KCZZZZZZ" })]⟩ 5 3
    { code := "KCZZZZZZ" } rfl rfl

theorem filter_map_preserve {α : Type} (l : List α) (f : α → α) (q : α → Bool)
    (h : ∀ a, q (f a) = q a) : (l.map f).filter q = (l.filter q).map f := by
  induction l with
  | nil => rfl
  | cons a rest ih =>
    simp only [List.map_cons, List.filter_cons, h a]
    cases hq : q a
    · simpa using ih
    · simpa using ih

/-- C2 counterexample: in the in-memory branch there is no verified flag,
so after one successful `verify_prediction` a second call with the same
correct code on the same (user, date) succeeds again with a balance of
200, instead of failing with `AlreadyVerified` with the 100-point reward
granted exactly once. -/
theorem C2_counterexample :
    (mem_verify_prediction ⟨[(1, exUserFull 1 "a" 0)], [((1, 0), { code := "KCABCDEF" })]⟩
        1 0 "KCABCDEF").1 = .ok ⟨true, 100, 100⟩ ∧
    (mem_verify_prediction
        ((mem_verify_prediction ⟨[(1, exUserFull 1 "a" 0)], [((1, 0), { code := "KCABCDEF" })]⟩
          1 0 "KCABCDEF").2) 1 0 "KCABCDEF").1 = .ok ⟨true, 100, 200⟩ :=
  ⟨rfl, rfl⟩

/-- C2 amended: in the Supabase branch the claim holds — once the day's
prediction row is verified, any later `verify_prediction` for the same
(user, date) fails with `AlreadyVerified` regardless of the submitted code
and leaves the state unchanged, and a successful verify marks the row
verified, so the 100-point reward is granted at most once per (user,
date).  In the in-memory branch there is no verified flag: every call with
the matching code succeeds and adds another 100 points. -/
theorem C2_verify_once_amended :
    (∀ (s : SbState) (tid day : Nat) (code : String) (pred : SbPred),
      (selectPred s.preds tid day).head? = some pred →
      pred.is_verified = true →
      sb_verify_prediction s tid day code = (.error .alreadyVerified, s)) ∧
    (∀ (s : SbState) (tid day : Nat) (pred : SbPred) (user : SbUser),
      (selectPred s.preds tid day).head? = some pred →
      pred.is_verified = false →
      (selectUser s.users tid).head? = some user →
      ∃ r s2, sb_verify_prediction s tid day pred.verification_code = (.ok r, s2) ∧
        ((selectPred s2.preds tid day).head?).map SbPred.is_verified = some true) ∧
    (∀ (s : MemState) (tid day : Nat) (p : PredictionD),
      dictGet s.preds (tid, day) = some p →
      (mem_verify_prediction s tid day p.code).1
        = .ok ⟨true, 100, ((dictGet s.users tid).getD {}).points.getD 0 + 100⟩) := by
  refine ⟨?_, ?_, ?_⟩
  · intro s tid day code pred hp hv
    unfold sb_verify_prediction
    simp [hp, hv]
  · intro s tid day pred user hp hv hu
    unfold sb_verify_prediction
    simp only [hp, hv, Bool.false_eq_true, if_false, ite_not, if_true]
    simp only [hu]
    refine ⟨_, _, rfl, ?_⟩
    have hcomm := filter_map_preserve s.preds
      (fun p => if p.id == pred.id then { p with is_verified := true } else p)
      (fun p => p.user_id == tid && p.created_at == day)
      (by
        intro a
        by_cases ha : a.id == pred.id <;> simp [ha])
    show (selectPred (s.preds.map
        (fun p => if p.id == pred.id then { p with is_verified := true } else p)) tid day).head?.map
          SbPred.is_verified = some true
    unfold selectPred at hcomm hp ⊢
    rw [hcomm, List.head?_map, hp]
    simp
  · intro s tid day p hp
    unfold mem_verify_prediction
    simp [hp]

theorem C2_verify_once_amended_witness :
    sb_verify_prediction ⟨[⟨1, "a", 1, 0, 0, none⟩], [⟨10, 1, 0, "KCABCDEF", true⟩], []⟩
        1 0 "WRONGCOD"
      = (.error .alreadyVerified,
          ⟨[⟨1, "a", 1, 0, 0, none⟩], [⟨10, 1, 0, "KCABCDEF", true⟩], []⟩) :=
  C2_verify_once_amended.1 ⟨[⟨1, "a", 1, 0, 0, none⟩], [⟨10, 1, 0, "KCABCDEF", true⟩], []⟩
    1 0 "WRONGCOD" ⟨10, 1, 0, "KCABCDEF", true⟩ rfl rfl

theorem selectUser_map_award (l : List SbUser) (tid p x lv : Nat) :
    selectUser (l.map (fun u => if u.telegram_id == tid then
        { u with points := p, xp := x, level := lv } else u)) tid
      = (selectUser l tid).map (fun u => if u.telegram_id == tid then
        { u with points := p, xp := x, level := lv } else u) := by
  apply filter_map_preserve
  intro a
  by_cases ha : a.telegram_id == tid <;> simp [ha]

/-- C3 counterexample: the in-memory branch of `spin_fortune` has no daily
gate (it does not even consult the date): two consecutive spins by the
same user within the same day both succeed, the second crediting another
prize instead of failing with `AlreadyDone`. -/
theorem C3_counterexample :
    (mem_spin_fortune ⟨[(1, exUserFull 1 "a" 0)], []⟩ 1 50).1 = .ok ⟨50, 50⟩ ∧
    (mem_spin_fortune ((mem_spin_fortune ⟨[(1, exUserFull 1 "a" 0)], []⟩ 1 50).2) 1 50).1
      = .ok ⟨50, 100⟩ :=
  ⟨rfl, rfl⟩

/-- C3 amended: in the Supabase branch the daily gate holds — a spin with
a `spins` row already present for (user, today) fails with `AlreadyDone`
and leaves the state unchanged; a first spin of the day (for an existing
user) succeeds and inserts the (user, today) row, after which a second
same-day spin fails with `AlreadyDone`, while rows of any other date are
untouched and the user remains present, so the next calendar date spins
successfully again.  The in-memory branch has no gate: every spin
succeeds. -/
theorem C3_spin_gate_amended :
    (∀ (s : SbState) (tid day prize : Nat),
      (s.spins.filter (fun r => r.user_id == tid && r.spun_at == day)).isEmpty = false →
      sb_spin_fortune s tid day prize = (.error .alreadySpun, s)) ∧
    (∀ (s : SbState) (tid day prize : Nat) (user : SbUser),
      (s.spins.filter (fun r => r.user_id == tid && r.spun_at == day)).isEmpty = true →
      (selectUser s.users tid).head? = some user →
      ∃ r s2, sb_spin_fortune s tid day prize = (.ok r, s2) ∧
        mkSpinRecord tid day prize ∈ s2.spins) ∧
    (∀ (s : SbState) (tid day prize prize2 : Nat) (user : SbUser),
      (s.spins.filter (fun r => r.user_id == tid && r.spun_at == day)).isEmpty = true →
      (selectUser s.users tid).head? = some user →
      (sb_spin_fortune ((sb_spin_fortune s tid day prize).2) tid day prize2).1
        = .error .alreadySpun) ∧
    (∀ (s : SbState) (tid day prize day2 : Nat) (user : SbUser),
      (s.spins.filter (fun r => r.user_id == tid && r.spun_at == day)).isEmpty = true →
      (selectUser s.users tid).head? = some user →
      day2 ≠ day →
      ((sb_spin_fortune s tid day prize).2).spins.filter
          (fun r => r.user_id == tid && r.spun_at == day2)
        = s.spins.filter (fun r => r.user_id == tid && r.spun_at == day2) ∧
      (selectUser ((sb_spin_fortune s tid day prize).2).users tid).head?.isSome = true) ∧
    (∀ (s : MemState) (tid prize : Nat),
      (mem_spin_fortune s tid prize).1
        = .ok ⟨prize, ((dictGet s.users tid).getD {}).points.getD 0 + prize⟩) := by
  have hsingle : ∀ tid day prize : Nat,
      ([mkSpinRecord tid day prize].filter
        (fun r => r.user_id == tid && r.spun_at == day)) = [mkSpinRecord tid day prize] := by
    intro tid day prize
    simp [mkSpinRecord]
  refine ⟨?_, ?_, ?_, ?_, fun s tid prize => rfl⟩
  · intro s tid day prize h
    unfold sb_spin_fortune
    simp [h]
  · intro s tid day prize user hempty hu
    unfold sb_spin_fortune
    simp only [hempty, if_true, hu]
    refine ⟨_, _, rfl, ?_⟩
    simp [mkSpinRecord]
  · intro s tid day prize prize2 user hempty hu
    unfold sb_spin_fortune
    simp only [hempty, if_true, hu]
    have hfil : ((s.spins ++ [mkSpinRecord tid day prize]).filter
        (fun r => r.user_id == tid && r.spun_at == day)).isEmpty = false := by
      rw [List.filter_append, hsingle]
      simp
    split
    case isTrue hcond =>
      rw [hfil] at hcond
      exact Bool.noConfusion hcond
    case isFalse hcond => rfl
  · intro s tid day prize day2 user hempty hu hday
    unfold sb_spin_fortune
    simp only [hempty, if_true, hu]
    constructor
    · rw [List.filter_append]
      have hone : ([mkSpinRecord tid day prize].filter
          (fun r => r.user_id == tid && r.spun_at == day2)) = [] := by
        simp only [List.filter, mkSpinRecord]
        have : (day == day2) = false := by
          simp only [beq_eq_false_iff_ne, ne_eq]
          exact fun he => hday he.symm
        simp [this]
      rw [hone, List.append_nil]
    · rw [selectUser_map_award, List.head?_map, hu]
      rfl

theorem C3_spin_gate_amended_witness :
    sb_spin_fortune ⟨[⟨1, "a", 1, 0, 0, none⟩], [], [⟨1, 0, 50⟩]⟩ 1 0 100
      = (.error .alreadySpun, ⟨[⟨1, "a", 1, 0, 0, none⟩], [], [⟨1, 0, 50⟩]⟩) :=
  C3_spin_gate_amended.1 ⟨[⟨1, "a", 1, 0, 0, none⟩], [], [⟨1, 0, 50⟩]⟩ 1 0 100 rfl

theorem selectUser_map_award_other (l : List SbUser) (tid uid p x lv : Nat) (h : uid ≠ tid) :
    selectUser (l.map (fun u => if u.telegram_id == tid then
        { u with points := p, xp := x, level := lv } else u)) uid
      = selectUser l uid := by
  unfold selectUser
  induction l with
  | nil => rfl
  | cons a rest ih =>
    simp only [List.map_cons, List.filter_cons]
    by_cases ha : a.telegram_id == tid
    · have hta : a.telegram_id = tid := by simpa using ha
      have ha2 : (a.telegram_id == uid) = false := by
        simp only [hta, beq_eq_false_iff_ne, ne_eq]
        exact fun he => h he.symm
      simp only [ha, eq_self_iff_true, if_true, ha2, Bool.false_eq_true, if_false]
      exact ih
    · have ha3 : (a.telegram_id == tid) = false := by simpa using ha
      simp only [ha3, Bool.false_eq_true, if_false]
      rw [ih]

/-- C1 counterexample: user 1 has `referrer_id = 2` and referrer 2 exists
with 0 points; a successful 100-point `verify_prediction` award to user 1
leaves the referrer's points at 0 instead of increasing them by
`floor(100 * 0.10) = 10`. -/
theorem C1_counterexample :
    (mem_verify_prediction
        ⟨[(1, { exUserFull 1 "a" 0 with referrer_id := some 2 }), (2, exUserFull 2 "r" 0)],
          [((1, 0), { code := "KCABCDEF" })]⟩ 1 0 "KCABCDEF").1 = .ok ⟨true, 100, 100⟩ ∧
    (dictGet ((mem_verify_prediction
        ⟨[(1, { exUserFull 1 "a" 0 with referrer_id := some 2 }), (2, exUserFull 2 "r" 0)],
          [((1, 0), { code := "KCABCDEF" })]⟩ 1 0 "KCABCDEF").2).users 2).map StoredUser.points
      = some (some 0) ∧
    some (some 0) ≠ some (some 10) :=
  ⟨rfl, rfl, by decide⟩

/-- C1 amended: no referral cascade exists in the code.  In every branch
of `verify_prediction` and `spin_fortune` (Supabase and in-memory), a
successful or failed call changes no account other than the recipient's:
the stored record of every other user — in particular any referrer,
grand-referrer or great-grand-referrer — is exactly as before the call.
The 10%/5%/2% tier percentages appear only in `get_referral_stats` as an
on-the-fly statistic over referees' total points, never as credited
points. -/
theorem C1_no_referral_cascade_amended :
    (∀ (s : MemState) (tid day : Nat) (code : String) (uid : Nat), uid ≠ tid →
      dictGet ((mem_verify_prediction s tid day code).2).users uid = dictGet s.users uid) ∧
    (∀ (s : MemState) (tid prize uid : Nat), uid ≠ tid →
      dictGet ((mem_spin_fortune s tid prize).2).users uid = dictGet s.users uid) ∧
    (∀ (s : SbState) (tid day : Nat) (code : String) (uid : Nat), uid ≠ tid →
      selectUser ((sb_verify_prediction s tid day code).2).users uid
        = selectUser s.users uid) ∧
    (∀ (s : SbState) (tid day prize uid : Nat), uid ≠ tid →
      selectUser ((sb_spin_fortune s tid day prize).2).users uid
        = selectUser s.users uid) := by
  refine ⟨?_, ?_, ?_, ?_⟩
  · intro s tid day code uid h
    unfold mem_verify_prediction
    cases hp : dictGet s.preds (tid, day) with
    | none => rfl
    | some pred =>
      by_cases hc : code ≠ pred.code
      · simp [hc]
      · simp only [if_neg hc]
        exact dictGet_dictSet_ne s.users tid uid _ h
  · intro s tid prize uid h
    exact dictGet_dictSet_ne s.users tid uid _ h
  · intro s tid day code uid h
    unfold sb_verify_prediction
    cases hp : (selectPred s.preds tid day).head? with
    | none => rfl
    | some pred =>
      by_cases hv : pred.is_verified
      · simp [hv]
      · simp only [Bool.not_eq_true] at hv
        simp only [hv, Bool.false_eq_true, if_false]
        by_cases hc : code ≠ pred.verification_code
        · simp [hc]
        · simp only [if_neg hc]
          cases hu : (selectUser s.users tid).head? with
          | none => simp only [hu]
          | some user =>
            simp only [hu]
            exact selectUser_map_award_other s.users tid uid _ _ _ h
  · intro s tid day prize uid h
    unfold sb_spin_fortune
    split
    · cases hu : (selectUser s.users tid).head? with
      | none => simp only [hu]
      | some user =>
        simp only [hu]
        exact selectUser_map_award_other s.users tid uid _ _ _ h
    · rfl

theorem C1_no_referral_cascade_amended_witness :
    dictGet ((mem_verify_prediction
        ⟨[(1, { exUserFull 1 "a" 0 with referrer_id := some 2 }), (2, exUserFull 2 "r" 0)],
          [((1, 0), { code := "KCABCDEF" })]⟩ 1 0 "KCABCDEF").2).users 2
      = dictGet
          (MemState.users
            ⟨[(1, { exUserFull 1 "a" 0 with referrer_id := some 2 }), (2, exUserFull 2 "r" 0)],
              [((1, 0), { code := "KCABCDEF" })]⟩) 2 :=
  C1_no_referral_cascade_amended.1
    ⟨[(1, { exUserFull 1 "a" 0 with referrer_id := some 2 }), (2, exUserFull 2 "r" 0)],
      [((1, 0), { code := "KCABCDEF" })]⟩ 1 0 "KCABCDEF" 2 (by decide)

theorem insertDesc_length (u : StoredUser) (l : List StoredUser) :
    (insertDesc u l).length = l.length + 1 := by
  induction l with
  | nil => rfl
  | cons v rest ih =>
    unfold insertDesc
    by_cases hv : userKey v ≤ userKey u
    · simp [hv]
    · simp [hv, ih]

theorem sortDesc_length (l : List StoredUser) : (sortDesc l).length = l.length := by
  induction l with
  | nil => rfl
  | cons u rest ih =>
    show (insertDesc u (sortDesc rest)).length = rest.length + 1
    rw [insertDesc_length, ih]

theorem mem_insertDesc {a u : StoredUser} {l : List StoredUser} :
    a ∈ insertDesc u l → a = u ∨ a ∈ l := by
  induction l with
  | nil =>
    intro h
    simp [insertDesc] at h
    exact Or.inl h
  | cons v rest ih =>
    unfold insertDesc
    by_cases hv : userKey v ≤ userKey u
    · rw [if_pos hv]
      intro h
      rcases List.mem_cons.mp h with rfl | h2
      · exact Or.inl rfl
      · exact Or.inr h2
    · rw [if_neg hv]
      intro h
      rcases List.mem_cons.mp h with rfl | h2
      · exact Or.inr (List.mem_cons_self _ _)
      · rcases ih h2 with h3 | h3
        · exact Or.inl h3
        · exact Or.inr (List.mem_cons_of_mem _ h3)

theorem mem_sortDesc {a : StoredUser} {l : List StoredUser} :
    a ∈ sortDesc l → a ∈ l := by
  induction l with
  | nil => exact fun h => h
  | cons u rest ih =>
    intro h
    rcases mem_insertDesc h with rfl | h2
    · exact List.mem_cons_self _ _
    · exact List.mem_cons_of_mem _ (ih h2)

theorem pairwise_insertDesc (u : StoredUser) (l : List StoredUser)
    (h : List.Pairwise (fun a b => userKey b ≤ userKey a) l) :
    List.Pairwise (fun a b => userKey b ≤ userKey a) (insertDesc u l) := by
  induction l with
  | nil => simp [insertDesc]
  | cons v rest ih =>
    rcases List.pairwise_cons.mp h with ⟨hv, hrest⟩
    unfold insertDesc
    by_cases hle : userKey v ≤ userKey u
    · rw [if_pos hle]
      refine List.pairwise_cons.mpr ⟨?_, h⟩
      intro b hb
      rcases List.mem_cons.mp hb with rfl | hb2
      · exact hle
      · exact le_trans (hv b hb2) hle
    · rw [if_neg hle]
      refine List.pairwise_cons.mpr ⟨?_, ih hrest⟩
      intro b hb
      rcases mem_insertDesc hb with rfl | hb2
      · exact le_of_not_le hle
      · exact hv b hb2

theorem sortDesc_pairwise (l : List StoredUser) :
    List.Pairwise (fun a b => userKey b ≤ userKey a) (sortDesc l) := by
  induction l with
  | nil => exact List.Pairwise.nil
  | cons u rest ih => exact pairwise_insertDesc u (sortDesc rest) ih

theorem filter_insertDesc (u : StoredUser) (l : List StoredUser) (p : Nat) :
    (insertDesc u l).filter (fun w => userKey w == p)
      = if userKey u = p then u :: l.filter (fun w => userKey w == p)
        else l.filter (fun w => userKey w == p) := by
  induction l with
  | nil =>
    by_cases hp : userKey u = p
    · simp [insertDesc, List.filter_cons, hp]
    · have hb : (userKey u == p) = false := by simpa using hp
      simp [insertDesc, List.filter_cons, hp, hb]
  | cons v rest ih =>
    unfold insertDesc
    by_cases hle : userKey v ≤ userKey u
    · rw [if_pos hle]
      by_cases hp : userKey u = p <;> simp [List.filter_cons, hp]
    · rw [if_neg hle]
      have hlt : userKey u < userKey v := Nat.lt_of_not_le hle
      by_cases hvp : userKey v = p
      · have hup : userKey u ≠ p := by omega
        simp [List.filter_cons, hvp, hup, ih]
      · by_cases hup : userKey u = p
        · simp [List.filter_cons, hvp, hup, ih]
        · simp [List.filter_cons, hvp, hup, ih]

theorem sortDesc_filter (l : List StoredUser) (p : Nat) :
    (sortDesc l).filter (fun w => userKey w == p)
      = l.filter (fun w => userKey w == p) := by
  induction l with
  | nil => rfl
  | cons u rest ih =>
    show (insertDesc u (sortDesc rest)).filter _ = _
    rw [filter_insertDesc]
    by_cases hp : userKey u = p
    · simp [List.filter_cons, hp, ih]
    · simp [List.filter_cons, hp, ih]

theorem mkEntries_ok (l : List StoredUser) (i : Nat)
    (h : ∀ u ∈ l, u.telegram_id ≠ none ∧ u.username ≠ none) :
    ∃ out, mkEntries l i = .ok out ∧ out.length = l.length ∧
      out.map LBEntry.points = l.map userKey ∧
      ∀ j (hj : j < out.length), (out.get ⟨j, hj⟩).rank = i + j + 1 := by
  induction l generalizing i with
  | nil => exact ⟨[], rfl, rfl, rfl, fun j hj => absurd hj (by simp)⟩
  | cons u rest ih =>
    have hu := h u (List.mem_cons_self _ _)
    obtain ⟨t, ht⟩ := Option.ne_none_iff_exists'.mp hu.1
    obtain ⟨nm, hnm⟩ := Option.ne_none_iff_exists'.mp hu.2
    obtain ⟨out, hout, hlen, hpts, hrank⟩ :=
      ih (i + 1) (fun v hv => h v (List.mem_cons_of_mem _ hv))
    refine ⟨⟨t, nm, u.level.getD 1, u.points.getD 0, i + 1⟩ :: out, ?_, ?_, ?_, ?_⟩
    · unfold mkEntries
      rw [ht, hnm, hout]
    · simp [hlen]
    · simp only [List.map_cons, hpts]
      rfl
    · intro j hj
      cases j with
      | zero => rfl
      | succ j2 =>
        have hr := hrank j2 (by simpa using hj)
        show (out.get ⟨j2, _⟩).rank = i + (j2 + 1) + 1
        rw [hr]
        omega

/-- C5 counterexample: Python's `[:limit]` slice treats a negative limit
as dropping `|limit|` entries from the end, so the in-memory
`get_leaderboard` with `limit = -1` over a two-user store returns one
entry — not the empty sequence the claim requires for `limit ≤ 0` (and
more than "at most limit" entries). -/
theorem C5_counterexample :
    mem_get_leaderboard [(1, exUserFull 1 "a" 10), (2, exUserFull 2 "b" 20)] (-1)
      = .ok [⟨2, "b", 1, 20, 1⟩] ∧
    (Except.ok [LBEntry.mk 2 "b" 1 20 1] : Except ApiError (List LBEntry))
      ≠ .ok ([] : List LBEntry) := by
  refine ⟨rfl, ?_⟩
  intro hcon
  simp at hcon

/-- C5 amended: for every snapshot whose records all carry the
`telegram_id` and `username` keys, the in-memory `get_leaderboard`
succeeds, its entries are sorted by points descending, ties preserve the
snapshot's enumeration order (the stable sort leaves the by-points filter
of the snapshot unchanged), `rank = index + 1`, a non-negative `limit`
yields `min limit n` entries (so the empty sequence for `limit = 0`), and
a negative `limit` follows Python slice semantics, returning the first
`n - |limit|` entries rather than the empty sequence.  The spec's
three-user example returns ranks [1,2,3] with the 500-point user first
and the two 300-point users in snapshot order. -/
theorem C5_leaderboard_amended :
    (∀ (users : List (Nat × StoredUser)) (limit : Int),
      (∀ u ∈ users.map Prod.snd, u.telegram_id ≠ none ∧ u.username ≠ none) →
      ∃ out, mem_get_leaderboard users limit = .ok out ∧
        List.Pairwise (fun a b => b.points ≤ a.points) out ∧
        (∀ j (hj : j < out.length), (out.get ⟨j, hj⟩).rank = j + 1) ∧
        (∀ p : Nat, (sortDesc (users.map Prod.snd)).filter (fun w => userKey w == p)
          = (users.map Prod.snd).filter (fun w => userKey w == p)) ∧
        (0 ≤ limit → out.length = min limit.toNat users.length) ∧
        (limit < 0 → out.length = users.length - limit.natAbs)) ∧
    mem_get_leaderboard
        [(1, exUserFull 1 "a" 300), (2, exUserFull 2 "b" 300), (3, exUserFull 3 "c" 500)] 100
      = .ok [⟨3, "c", 1, 500, 1⟩, ⟨1, "a", 1, 300, 2⟩, ⟨2, "b", 1, 300, 3⟩] := by
  constructor
  · intro users limit h
    have hsliced : ∀ u ∈ pySlice (sortDesc (users.map Prod.snd)) limit,
        u.telegram_id ≠ none ∧ u.username ≠ none := by
      intro u hu
      apply h
      apply mem_sortDesc
      unfold pySlice at hu
      by_cases h0 : (0 : Int) ≤ limit
      · rw [if_pos h0] at hu
        exact List.take_subset _ _ hu
      · rw [if_neg h0] at hu
        exact List.take_subset _ _ hu
    obtain ⟨out, hout, hlen, hpts, hrank⟩ :=
      mkEntries_ok (pySlice (sortDesc (users.map Prod.snd)) limit) 0 hsliced
    refine ⟨out, hout, ?_, ?_, ?_, ?_, ?_⟩
    · have hsl : List.Pairwise (fun a b => userKey b ≤ userKey a)
          (pySlice (sortDesc (users.map Prod.snd)) limit) := by
        unfold pySlice
        split
        · exact List.Pairwise.sublist (List.take_sublist _ _)
            (sortDesc_pairwise (users.map Prod.snd))
        · exact List.Pairwise.sublist (List.take_sublist _ _)
            (sortDesc_pairwise (users.map Prod.snd))
      have hmap : List.Pairwise (fun a b : Nat => b ≤ a) (out.map LBEntry.points) := by
        rw [hpts]
        exact List.pairwise_map.mpr hsl
      exact List.pairwise_map.mp hmap
    · intro j hj
      have hr := hrank j hj
      rw [hr]
      omega
    · exact fun p => sortDesc_filter (users.map Prod.snd) p
    · intro h0
      rw [hlen]
      unfold pySlice
      rw [if_pos h0, List.length_take, sortDesc_length, List.length_map]
    · intro h0
      rw [hlen]
      unfold pySlice
      rw [if_neg (by omega), List.length_take, sortDesc_length, List.length_map]
      omega
  · rfl

theorem C5_leaderboard_amended_witness :
    ∃ out, mem_get_leaderboard [(1, exUserFull 1 "a" 300)] 5 = .ok out ∧
      List.Pairwise (fun a b => b.points ≤ a.points) out ∧
      (∀ j (hj : j < out.length), (out.get ⟨j, hj⟩).rank = j + 1) ∧
      (∀ p : Nat, (sortDesc ([(1, exUserFull 1 "a" 300)].map Prod.snd)).filter
            (fun w => userKey w == p)
          = ([(1, exUserFull 1 "a" 300)].map Prod.snd).filter (fun w => userKey w == p)) ∧
      ((0 : Int) ≤ 5 → out.length = min (Int.toNat 5) [(1, exUserFull 1 "a" 300)].length) ∧
      ((5 : Int) < 0 → out.length = [(1, exUserFull 1 "a" 300)].length - Int.natAbs 5) :=
  C5_leaderboard_amended.1 [(1, exUserFull 1 "a" 300)] 5 (by decide)
